import Mathlib

/-!
Verification of the FedGuard robust federated-aggregation engine.

Shallow embedding of the repository's core numeric code:
 - `main/api/detector.py`  — weight codec, outlier detection, robust aggregation
 - `main/api/model_store.py` — versioned global model store
 - `main/api/aggregator.py`  — batch aggregation worker round
 - `main/federated_engine.py` — buffer-based engine (staleness discount, delta admission)
 - `main/trust_engine.py`     — update validation and client trust updates
 - `main/aggregation.py`      — engine-side trimmed mean

Numbers are modelled exactly: Python floats become `ℚ` where the code only
adds, multiplies, divides and compares, and `ℝ` where `np.sqrt` /
`np.linalg.norm` appear.  IEEE special values (NaN, ±Inf), where a claim
depends on them, are modelled by the inductive `FVal`.
-/

namespace FedGuard

/-! ## Configuration constants (`fedguard/config.py`) -/

/-- `TRIM_RATIO = 0.2`: fraction clipped from each side by the trimmed mean. -/
def trimRatio : ℚ := 0.2

/-- `NORM_RATIO = 5.0`: flag when an update's norm exceeds this multiple of the
batch median norm. -/
def normRatioLimit : ℝ := 5

/-- `COS_THRESHOLD = -0.3`: flag when cosine similarity with the coordinate-wise
median direction falls below this. -/
def cosThresholdCfg : ℝ := -0.3

/-! ## Weight codec (`main/api/detector.py`: `_flatten`, `_unflatten`)

A rectangular numpy array is its shape together with its row-major data;
a weights dict is an association list from layer name to array.  Python dict
equality ignores insertion order, so a dict is represented canonically by a
key-sorted association list (well-formedness below asks for sorted keys). -/

/-- A rectangular numpy float array: shape and row-major flattened data. -/
structure NArr where
  shape : List ℕ
  data : List ℚ
deriving DecidableEq

/-- A weights dict: layer name to array. -/
abbrev WMap : Type := List (String × NArr)

/-- Comparison of entries by layer name, as `sorted(weights.keys())` orders them. -/
def keyLE (a b : String × NArr) : Prop := a.1 ≤ b.1

instance : DecidableRel keyLE := fun a b => inferInstanceAs (Decidable (a.1 ≤ b.1))

/-- Iterating a dict's items in sorted key order. -/
def sortByKey (w : WMap) : WMap := List.insertionSort keyLE w

/-- `_flatten`: concatenate each layer's row-major data, layers in sorted key
order. -/
def flatten (w : WMap) : List ℚ := ((sortByKey w).map (fun kv => kv.2.data)).flatten

/-- The slicing loop of `_unflatten`: each layer takes `arr.size = shape.prod`
entries of the flat vector at the running offset (here: the not-yet-consumed
suffix) and is reshaped to the template layer's shape. -/
def unflattenGo : List ℚ → List (String × NArr) → List (String × NArr)
  | _, [] => []
  | flat, (k, a) :: rest =>
      (k, ⟨a.shape, flat.take a.shape.prod⟩) :: unflattenGo (flat.drop a.shape.prod) rest

/-- `_unflatten`: rebuild a weights dict from a flat vector using the template's
shapes, layers in sorted key order. -/
def unflatten (flat : List ℚ) (template : WMap) : WMap :=
  unflattenGo flat (sortByKey template)

/-- An array is well-formed when its data has exactly `shape.prod` entries
(what `np.array(...)` guarantees for a rectangular nested list). -/
def wfArr (a : NArr) : Prop := a.data.length = a.shape.prod

/-- A weight map is well-formed when its keys are strictly sorted (the canonical
representation of a Python dict) and every layer is rectangular. -/
def wfMap (w : WMap) : Prop :=
  List.Pairwise (fun a b => a.1 < b.1) w ∧ ∀ kv ∈ w, wfArr kv.2

/-! ## Trimmed mean (`main/api/detector.py`: `_trimmed_mean`) -/

/-- `np.mean` of a list of floats. -/
def meanQ (l : List ℚ) : ℚ := l.sum / l.length

/-- `np.sort` of a float vector. -/
def sortQ (l : List ℚ) : List ℚ := List.insertionSort (· ≤ ·) l

/-- One coordinate of `_trimmed_mean`: sort the column, slice `[k : n - k]`,
average; if the slice is empty fall back to the whole sorted column. -/
def trimmedCoord (xs : List ℚ) (k n : ℕ) : ℚ :=
  let s := sortQ xs
  let t := (s.drop k).take (n - k - k)
  if t.isEmpty then meanQ s else meanQ t

/-- `k = max(1, int(len(updates) * TRIM_RATIO))`. -/
def trimK (n : ℕ) : ℕ := max 1 ⌊(n : ℚ) * trimRatio⌋₊

/-- Column `i` of the stacked matrix of flattened updates. -/
def column (vs : List (List ℚ)) (i : ℕ) : List ℚ := vs.map (fun v => v.getD i 0)

/-- The machine-readable flag reason returned by `is_outlier`.  The code
formats the offending value into the reason string (`"norm_ratio:<v>"`,
`"cosine_sim:<v>"`); the decimal formatting is abstracted and the value kept
exactly. -/
inductive DReason where
  | clean : DReason
  | normRatio (v : ℝ) : DReason
  | cosineSim (v : ℝ) : DReason

/-- An update dict as the detector and the aggregation worker see it:
`client_id`, `weights`, optional `n_samples` (`u.get('n_samples', 1)`), and the
engine-set mutable fields `_flagged` / `_flag_reason` (absent ↦ `false` /
`clean`). -/
structure DUpdate where
  client_id : String
  weights : WMap
  n_samples : ℕ
  flagged : Bool
  flag_reason : DReason

/-- `_trimmed_mean(updates, template)`: stack the flattened updates, sort each
coordinate across updates, drop `k = max(1, int(n*TRIM_RATIO))` rows from each
end, average what remains (the whole sorted stack when the slice is empty), and
unflatten into the template's shapes. -/
def trimmed_mean_det (updates : List DUpdate) (template : WMap) : WMap :=
  let vs := updates.map (fun u => flatten u.weights)
  let n := updates.length
  let k := trimK n
  let d := (vs.headD []).length
  unflatten ((List.range d).map (fun i => trimmedCoord (column vs i) k n)) template

/-- `np.median` of a float vector: middle element of the sorted vector, or the
average of the two middle elements when the length is even. -/
def npMedianQ (l : List ℚ) : ℚ :=
  let s := sortQ l
  if l.length % 2 = 1 then s.getD (l.length / 2) 0
  else (s.getD (l.length / 2 - 1) 0 + s.getD (l.length / 2) 0) / 2

/-- `_coordinate_median(updates, template)`: per-coordinate median across the
stacked flattened updates. -/
def coordinate_median (updates : List DUpdate) (template : WMap) : WMap :=
  let vs := updates.map (fun u => flatten u.weights)
  let d := (vs.headD []).length
  unflatten ((List.range d).map (fun i => npMedianQ (column vs i))) template

/-- `_fedavg(updates, template)`: average of the stacked flattened updates
weighted by `n_samples / total_samples`. -/
def fedavg (updates : List DUpdate) (template : WMap) : WMap :=
  let total : ℚ := (updates.map (fun u => (u.n_samples : ℚ))).sum
  let vs := updates.map (fun u => flatten u.weights)
  let ws := updates.map (fun u => (u.n_samples : ℚ) / total)
  let d := (vs.headD []).length
  unflatten
    ((List.range d).map (fun i => ((List.zipWith (fun w v => w * v.getD i 0) ws vs)).sum))
    template

/-! ## Sanitization (`main/api/detector.py`: `aggregate`)

`np.nan_to_num(arr, nan=0.0, posinf=1e6, neginf=-1e6)` works on IEEE floats, so
the float domain here is made explicit: a float is finite (an exact rational),
NaN, `+Inf` or `-Inf`. -/

/-- An IEEE float64 value: finite (kept exact), NaN, or a signed infinity. -/
inductive FVal where
  | fin (q : ℚ) : FVal
  | nan : FVal
  | pinf : FVal
  | ninf : FVal
deriving DecidableEq

/-- A numpy array over the explicit float domain. -/
structure NArrF where
  shape : List ℕ
  data : List FVal
deriving DecidableEq

/-- A weights dict over the explicit float domain. -/
abbrev FMap : Type := List (String × NArrF)

/-- `True` exactly for a finite float. -/
def isFiniteF : FVal → Bool
  | .fin _ => true
  | _ => false

/-- `np.nan_to_num(·, nan=0.0, posinf=1e6, neginf=-1e6)` on one float. -/
def nan_to_num : FVal → ℚ
  | .fin q => q
  | .nan => 0
  | .pinf => 1e6
  | .ninf => -1e6

/-- The sanitization loop of `aggregate`: every coordinate of every layer is
passed through `nan_to_num`. -/
def sanitizeW (w : FMap) : FMap :=
  w.map (fun kv => (kv.1, ⟨kv.2.shape, kv.2.data.map (fun v => .fin (nan_to_num v))⟩))

/-- Embedding of an exact weights dict into the float domain. -/
def toFMap (w : WMap) : FMap :=
  w.map (fun kv => (kv.1, ⟨kv.2.shape, kv.2.data.map .fin⟩))

/-- Projection of an all-finite float weights dict back to exact values
(`arr.tolist()` after `nan_to_num`). -/
def toQMap (w : FMap) : WMap :=
  w.map (fun kv => (kv.1, ⟨kv.2.shape, kv.2.data.map nan_to_num⟩))

/-- The algorithm dispatch of `aggregate` (before sanitization): `"median"`,
`"fedavg"`, anything else falls back to trimmed mean.  `algo` is the optional
override of `AGG_ALGO = "trimmed_mean"`. -/
def aggregateRaw (updates : List DUpdate) (template : WMap) (algo : Option String) : WMap :=
  let a := algo.getD "trimmed_mean"
  if a = "median" then coordinate_median updates template
  else if a = "fedavg" then fedavg updates template
  else trimmed_mean_det updates template

/-- `aggregate(updates, template, algo)`: dispatch to the configured algorithm,
then sanitize every output coordinate before returning. -/
def aggregate (updates : List DUpdate) (template : WMap) (algo : Option String) : WMap :=
  toQMap (sanitizeW (toFMap (aggregateRaw updates template algo)))

/-- The spec's description of the trimmed mean, one coordinate: sort the `n`
contributed values, drop `k = max(1, floor(n * TRIM_RATIO))` from each tail and
average the remainder; fall back to the untrimmed mean when `n - 2k ≤ 0`. -/
def specTrimmedCoord (xs : List ℚ) (ratio : ℚ) : ℚ :=
  let n := xs.length
  let k := max 1 ⌊(n : ℚ) * ratio⌋₊
  if n ≤ 2 * k then meanQ xs
  else meanQ (((sortQ xs).drop k).take (n - 2 * k))

/-! ## IEEE float arithmetic on the explicit float domain

Only what the engine touches: subtraction, addition, multiplication, division
and squares, with NaN absorbing and the usual signed-infinity rules. -/

/-- IEEE subtraction. -/
def subF : FVal → FVal → FVal
  | .fin a, .fin b => .fin (a - b)
  | .nan, _ => .nan
  | _, .nan => .nan
  | .pinf, .pinf => .nan
  | .pinf, _ => .pinf
  | .ninf, .ninf => .nan
  | .ninf, _ => .ninf
  | .fin _, .pinf => .ninf
  | .fin _, .ninf => .pinf

/-- IEEE addition. -/
def addF : FVal → FVal → FVal
  | .fin a, .fin b => .fin (a + b)
  | .nan, _ => .nan
  | _, .nan => .nan
  | .pinf, .ninf => .nan
  | .ninf, .pinf => .nan
  | .pinf, _ => .pinf
  | _, .pinf => .pinf
  | .ninf, _ => .ninf
  | _, .ninf => .ninf

/-- IEEE multiplication (`inf * 0 = nan`). -/
def mulF : FVal → FVal → FVal
  | .fin a, .fin b => .fin (a * b)
  | .nan, _ => .nan
  | _, .nan => .nan
  | .pinf, .pinf => .pinf
  | .pinf, .ninf => .ninf
  | .ninf, .pinf => .ninf
  | .ninf, .ninf => .pinf
  | .pinf, .fin b => if 0 < b then .pinf else if b < 0 then .ninf else .nan
  | .ninf, .fin b => if 0 < b then .ninf else if b < 0 then .pinf else .nan
  | .fin a, .pinf => if 0 < a then .pinf else if a < 0 then .ninf else .nan
  | .fin a, .ninf => if 0 < a then .ninf else if a < 0 then .pinf else .nan

/-- IEEE division (`x/0 = ±inf` or `nan`, `fin/inf = 0`, `inf/inf = nan`). -/
def divF : FVal → FVal → FVal
  | .fin a, .fin b =>
      if b = 0 then (if a = 0 then .nan else if 0 < a then .pinf else .ninf)
      else .fin (a / b)
  | .nan, _ => .nan
  | _, .nan => .nan
  | .fin _, .pinf => .fin 0
  | .fin _, .ninf => .fin 0
  | .pinf, .fin b => if 0 ≤ b then .pinf else .ninf
  | .ninf, .fin b => if 0 ≤ b then .ninf else .pinf
  | _, _ => .nan

/-- `np.square` on one float. -/
def sqF (x : FVal) : FVal := mulF x x

/-- `np.sum` / float accumulation starting from `0.0`. -/
def sumF (l : List FVal) : FVal := l.foldl addF (.fin 0)

/-- np.sort's comparison on floats: NaN sorts last. -/
def leF : FVal → FVal → Bool
  | _, .nan => true
  | .nan, _ => false
  | .ninf, _ => true
  | _, .ninf => false
  | .pinf, .pinf => true
  | .pinf, .fin _ => false
  | .fin _, .pinf => true
  | .fin a, .fin b => a ≤ b

/-- `np.sort` of a float vector (NaN last). -/
def sortF (l : List FVal) : List FVal := List.insertionSort (fun a b => leF a b = true) l

/-- `np.mean`: sum divided by length (`nan` on an empty array). -/
def meanF (l : List FVal) : FVal := divF (sumF l) (.fin (l.length : ℚ))

/-- `np.dot` of two flat float vectors. -/
def dotF (a b : List FVal) : FVal := sumF (List.zipWith mulF a b)

/-- Accumulated sum of squares of a flat float vector (what sits under
`np.linalg.norm`). -/
def sumSqList (l : List FVal) : FVal := sumF (l.map sqF)

/-! ## Buffer-based engine (`main/federated_engine.py`, `main/trust_engine.py`) -/

/-- `BUFFER_SIZE = 5`. -/
def BUFFER_SIZE : ℕ := 5

/-- `NORM_THRESHOLD = 10000.0`. -/
def NORM_THRESHOLD : ℚ := 10000

/-- `COSINE_THRESHOLD = 0.0` (engine-side). -/
def COSINE_THRESHOLD : ℚ := 0

/-- `np.zeros_like(w_base)`. -/
def zeros_like (a : NArrF) : NArrF := ⟨a.shape, List.replicate a.shape.prod (.fin 0)⟩

/-- `_compute_delta(client_weights, base_weights)`: iterate the base layers; a
present, matching-shape client layer gives the elementwise difference
`client - base`; a missing or shape-mismatched layer gives a zero array of the
base layer's shape. -/
def compute_delta (client base : FMap) : FMap :=
  base.map (fun kv =>
    match client.lookup kv.1 with
    | some a =>
        if a.shape = kv.2.shape
        then (kv.1, ⟨kv.2.shape, List.zipWith subF a.data kv.2.data⟩)
        else (kv.1, zeros_like kv.2)
    | none => (kv.1, zeros_like kv.2))

/-- `_apply_delta(global_weights, agg_delta)`: add the aggregated delta onto
each global layer that the delta covers. -/
def apply_delta (global agg : FMap) : FMap :=
  global.map (fun kv =>
    match agg.lookup kv.1 with
    | some a => (kv.1, ⟨kv.2.shape, List.zipWith addF kv.2.data a.data⟩)
    | none => kv)

/-- The staleness discount multiplication `np.array(v) * scale` on a weights
dict. -/
def scaleW (c : ℚ) (w : FMap) : FMap :=
  w.map (fun kv => (kv.1, ⟨kv.2.shape, kv.2.data.map (fun v => mulF v (.fin c))⟩))

/-- The running total of `calculate_update_norm`: `total += sum(square(arr))`
over the layers, starting from `0.0`. -/
def totalSqF (w : FMap) : FVal :=
  w.foldl (fun acc kv => addF acc (sumF (kv.2.data.map sqF))) (.fin 0)

/-- `calculate_update_norm(w) > threshold` with IEEE comparison semantics: the
norm is the square root of the accumulated total; a NaN total compares false,
an infinite total exceeds every threshold. -/
def normExceeds (w : FMap) (threshold : ℚ) : Prop :=
  match totalSqF w with
  | .fin q => Real.sqrt q > (threshold : ℝ)
  | .pinf => True
  | _ => False

/-- The NaN/Inf scan of `validate_update`: the first layer whose array contains
a non-finite entry (`np.isnan` or `np.isinf`). -/
def firstBadLayer (w : FMap) : Option String :=
  (w.find? (fun kv => kv.2.data.any (fun v => !(isFiniteF v)))).map Prod.fst

/-- The machine-readable content of the engine's result strings. -/
inductive EReason where
  | valid : EReason
  | normTooLarge : EReason
  | nanInLayer (layer : String) : EReason
  | noReferenceYet : EReason
  | noCommonKeys : EReason
  | zeroVector : EReason
  | cosineLow : EReason
  | cosineOk : EReason
  | unauthorized : EReason
deriving DecidableEq

open Classical in
/-- `validate_update(update_weights, threshold)`: reject when the delta's L2
norm exceeds the threshold, else when some layer contains NaN/Inf. -/
noncomputable def validate_update (w : FMap) (threshold : ℚ) : Bool × EReason :=
  if normExceeds w threshold then (false, .normTooLarge)
  else
    match firstBadLayer w with
    | some k => (false, .nanInLayer k)
    | none => (true, .valid)

/-- The layer pairs shared by a delta and the reference, in the delta's
iteration order (`[k for k in delta if k in reference]`). -/
def commonKeyPairs (delta ref : FMap) : List (NArrF × NArrF) :=
  delta.filterMap (fun kv => (ref.lookup kv.1).map (fun r => (kv.2, r)))

/-- `np.linalg.norm(flat) < c` with IEEE semantics (NaN and `+Inf` compare
false; the norm of a `-Inf` total is NaN). -/
def sqrtLtF (x : FVal) (c : ℚ) : Prop :=
  match x with
  | .fin q => Real.sqrt q < (c : ℝ)
  | _ => False

/-- `dot/(norm_d * norm_r) < t` with IEEE semantics, given the dot product and
the two squared norms; only a finite quotient or `-Inf` can compare below. -/
def simBelow (d nd2 nr2 : FVal) (t : ℚ) : Prop :=
  match d, nd2, nr2 with
  | .fin x, .fin p, .fin q => (x : ℝ) / (Real.sqrt p * Real.sqrt q) < (t : ℝ)
  | .ninf, .fin _, .fin _ => True
  | _, _, _ => False

open Classical in
/-- `cosine_similarity_check(delta, reference, threshold)`. -/
noncomputable def cosine_similarity_check (delta ref : FMap) (threshold : ℚ) : Bool × EReason :=
  if ref.isEmpty then (true, .noReferenceYet)
  else
    let pairs := commonKeyPairs delta ref
    if pairs.isEmpty then (true, .noCommonKeys)
    else
      let fd := (pairs.map (fun p => p.1.data)).flatten
      let fr := (pairs.map (fun p => p.2.data)).flatten
      if sqrtLtF (sumSqList fd) 1e-9 ∨ sqrtLtF (sumSqList fr) 1e-9 then (true, .zeroVector)
      else if simBelow (dotF fd fr) (sumSqList fd) (sumSqList fr) threshold then
        (false, .cosineLow)
      else (true, .cosineOk)

/-- The Client record fields that `update_client_trust` touches; `client_id`
stands in for the record's remaining, untouched fields. -/
structure Client where
  client_id : String
  trust_score : ℚ
  rejected_count : ℕ
deriving DecidableEq

/-- `update_client_trust(client, accepted)`: `+0.01` capped at `1.0` on accept;
`-0.2` floored at `0.0` and `rejected_count += 1` on reject. -/
def update_client_trust (c : Client) (accepted : Bool) : Client :=
  if accepted then { c with trust_score := min 1 (c.trust_score + 0.01) }
  else { c with trust_score := max 0 (c.trust_score - 0.2),
                rejected_count := c.rejected_count + 1 }

/-- `update_client_trust` applied to the stored record of one client. -/
def updateClientIn (cs : List Client) (id : String) (accepted : Bool) : List Client :=
  cs.map (fun c => if c.client_id = id then update_client_trust c accepted else c)

/-- One coordinate of the engine-side `trimmed_mean` (`main/aggregation.py`):
sort across updates, slice `[trim_count : n - trim_count]` when
`n - 2*trim_count > 0`, else keep everything; then average. -/
def engTrimCoord (xs : List FVal) (tc n : ℕ) : FVal :=
  let s := sortF xs
  if 0 < n - 2 * tc then meanF ((s.drop tc).take (n - tc - tc))
  else meanF s

/-- `trimmed_mean(updates, trim_ratio)` (`main/aggregation.py`): keys from the
first update, `trim_count = int(n * trim_ratio)` (no lower bound), trimmed
average per coordinate.  A layer a later update lacks would raise `KeyError`
in the source; it is modelled as an empty array (never reached for the
engine's aligned buffers). -/
def trimmed_mean_eng (updates : List FMap) (trim_ratio : ℚ) : FMap :=
  match updates with
  | [] => []
  | u0 :: _ =>
      let n := updates.length
      let tc := ⌊(n : ℚ) * trim_ratio⌋₊
      u0.map (fun kv =>
        let cols := updates.map (fun u => ((u.lookup kv.1).getD ⟨[], []⟩).data)
        (kv.1, ⟨kv.2.shape, (List.range kv.2.data.length).map
            (fun i => engTrimCoord (cols.map (fun c => c.getD i (.fin 0))) tc n)⟩))

/-- Modelled from the spec: `mean_delta` is imported by the engine from
`main/aggregation.py` but its definition is not among the repository's files.
The spec defines the reference direction as "the mean of the previous accepted
batch's deltas", so: keys from the first update, per-coordinate arithmetic
mean across the buffered deltas. -/
def mean_delta (updates : List FMap) : FMap :=
  match updates with
  | [] => []
  | u0 :: _ =>
      u0.map (fun kv =>
        let cols := updates.map (fun u => ((u.lookup kv.1).getD ⟨[], []⟩).data)
        (kv.1, ⟨kv.2.shape, (List.range kv.2.data.length).map
            (fun i => meanF (cols.map (fun c => c.getD i (.fin 0))))⟩))

/-- The engine's state: registered clients, the latest committed version and
its weights, the pending scaled-delta buffer, the reference direction, the
session counters and the update log (client, accepted). -/
structure EngineState where
  clients : List Client
  currentVersion : ℤ
  baseWeights : FMap
  buffer : List FMap
  refDir : FMap
  sessionAccepted : ℕ
  sessionRejected : ℕ
  logs : List (String × Bool)

/-- The client-visible outcome of `process_update`.  The buffered response
reports the buffer depth, the staleness and the discount scale (the source
rounds the reported scale to 4 decimals; the exact value is kept here). -/
inductive EStatus where
  | rejected (reason : EReason) : EStatus
  | buffered (depth : ℕ) (staleness : ℤ) (scale : ℚ) : EStatus
  | accepted (newVersion : ℤ) : EStatus
deriving DecidableEq

/-- `process_update(client_id, client_weights, base_version)`: authorization,
staleness discount `scale = 1/(1+staleness)` with
`staleness = max(0, current_version - base_version)`, delta computation, norm
and NaN validation, cosine check against the reference direction, then
buffering of the scaled delta; when the buffer reaches `BUFFER_SIZE` the
buffered deltas are aggregated by the engine trimmed mean, the reference
direction becomes their mean, and a new version is committed. -/
noncomputable def process_update (s : EngineState) (client_id : String)
    (client_weights : FMap) (base_version : ℤ) : EStatus × EngineState :=
  if ¬ s.clients.any (fun c => c.client_id = client_id) then (.rejected .unauthorized, s)
  else
    let staleness : ℤ := max 0 (s.currentVersion - base_version)
    let scale : ℚ := 1 / (1 + (staleness : ℚ))
    let delta := compute_delta client_weights s.baseWeights
    let v := validate_update delta NORM_THRESHOLD
    if v.1 = false then
      (.rejected v.2,
        { s with sessionRejected := s.sessionRejected + 1,
                 logs := s.logs ++ [(client_id, false)],
                 clients := updateClientIn s.clients client_id false })
    else
      let cs := cosine_similarity_check delta s.refDir COSINE_THRESHOLD
      if cs.1 = false then
        (.rejected cs.2,
          { s with sessionRejected := s.sessionRejected + 1,
                   logs := s.logs ++ [(client_id, false)],
                   clients := updateClientIn s.clients client_id false })
      else
        let scaled := scaleW scale delta
        let buf := s.buffer ++ [scaled]
        if BUFFER_SIZE ≤ buf.length then
          (.accepted (s.currentVersion + 1),
            { s with buffer := [],
                     refDir := mean_delta buf,
                     baseWeights := apply_delta s.baseWeights (trimmed_mean_eng buf (1/10)),
                     currentVersion := s.currentVersion + 1,
                     sessionAccepted := s.sessionAccepted + 1,
                     logs := s.logs ++ [(client_id, true)],
                     clients := updateClientIn s.clients client_id true })
        else
          (.buffered buf.length staleness scale,
            { s with buffer := buf,
                     sessionAccepted := s.sessionAccepted + 1,
                     logs := s.logs ++ [(client_id, true)],
                     clients := updateClientIn s.clients client_id true })

/-- `True` exactly on a rejected status. -/
def isRejectedE : EStatus → Bool
  | .rejected _ => true
  | _ => false

/-! ## Outlier detection (`main/api/detector.py`: `is_outlier`,
`filter_outliers`) -/

/-- Sum of squares of a real vector. -/
def sumSqR (l : List ℝ) : ℝ := (l.map (fun x => x * x)).sum

/-- `np.linalg.norm`: the L2 norm of a flat vector. -/
noncomputable def normR (l : List ℝ) : ℝ := Real.sqrt (sumSqR l)

/-- A flattened rational vector read as real numbers. -/
def castVec (v : List ℚ) : List ℝ := v.map (fun q => (q : ℝ))

/-- The L2 norm of a flattened weights vector. -/
noncomputable def nrm (v : List ℚ) : ℝ := normR (castVec v)

/-- `np.dot` on real vectors. -/
def dotR (a b : List ℝ) : ℝ := (List.zipWith (fun x y => x * y) a b).sum

/-- `np.median` of a real vector: middle element of the sorted vector, or the
average of the two middle elements for even length. -/
noncomputable def npMedian (l : List ℝ) : ℝ :=
  let s := List.insertionSort (fun a b : ℝ => a ≤ b) l
  if l.length % 2 = 1 then s.getD (l.length / 2) 0
  else (s.getD (l.length / 2 - 1) 0 + s.getD (l.length / 2) 0) / 2

/-- `_cosine_sim(a, b)`: `1.0` when either vector is near zero, else the
normalized dot product. -/
noncomputable def cosine_sim (a b : List ℝ) : ℝ :=
  if normR a < 1e-12 ∨ normR b < 1e-12 then 1 else dotR a b / (normR a * normR b)

/-- `is_outlier(update, all_updates)`: clean for batches smaller than 2; else
flag `norm_ratio` when `my_norm / (median_norm + 1e-9) > NORM_RATIO`, else flag
`cosine_sim` when the cosine against the coordinate-wise median direction is
below `COS_THRESHOLD`. -/
noncomputable def is_outlier (u : DUpdate) (all_updates : List DUpdate) : Bool × DReason :=
  if all_updates.length < 2 then (false, .clean)
  else
    let deltas := all_updates.map (fun v => flatten v.weights)
    let my_delta := flatten u.weights
    let norms := deltas.map (fun dl => nrm dl)
    let median_norm := npMedian norms
    let my_norm := nrm my_delta
    if my_norm / (median_norm + 1e-9) > normRatioLimit then
      (true, .normRatio (my_norm / (median_norm + 1e-9)))
    else
      let d := (deltas.headD []).length
      let median_dir :=
        (List.range d).map (fun i => npMedian (deltas.map (fun v => ((v.getD i 0 : ℚ) : ℝ))))
      let cos := cosine_sim (castVec my_delta) median_dir
      if cos < cosThresholdCfg then (true, .cosineSim cos) else (false, .clean)

/-- The loop of `filter_outliers`, mutating the batch in place: `done` is the
already-visited prefix (possibly marked), and each update is judged against
the whole current batch.  Returns (clean list, batch after marking). -/
noncomputable def filterGo (done : List DUpdate) : List DUpdate → List DUpdate × List DUpdate
  | [] => ([], [])
  | u :: todo =>
      let r := is_outlier u (done ++ u :: todo)
      if r.1 then
        let u2 := { u with flagged := true, flag_reason := r.2 }
        let rest := filterGo (done ++ [u2]) todo
        (rest.1, u2 :: rest.2)
      else
        let rest := filterGo (done ++ [u]) todo
        (u :: rest.1, u :: rest.2)

/-- `filter_outliers(updates)`: clean updates in order, flagged ones marked
with their reason and retained in the batch for audit logging. -/
noncomputable def filter_outliers (updates : List DUpdate) : List DUpdate × List DUpdate :=
  filterGo [] updates

/-! ## Model store and aggregation worker (`main/api/model_store.py`,
`main/api/aggregator.py`) -/

/-- The model store's state: the version counter (`_round_id`, starting at 0)
and the current global weights. -/
structure StoreState where
  round_id : ℕ
  weights : WMap

/-- `set_weights(new_weights)`: atomically replace the weights and increment
the version; returns the new version. -/
def set_weights (s : StoreState) (new_weights : WMap) : ℕ × StoreState :=
  (s.round_id + 1, ⟨s.round_id + 1, new_weights⟩)

/-- One pass of `aggregation_worker`'s loop over a collected batch: an empty
collection just waits; a batch whose updates are all flagged is skipped
without committing; otherwise the clean updates are aggregated against the
current weights and committed. -/
noncomputable def aggregation_round (s : StoreState) (updates : List DUpdate) : StoreState :=
  if updates.isEmpty then s
  else
    let clean := (filter_outliers updates).1
    if clean.isEmpty then s
    else (set_weights s (aggregate clean s.weights none)).2

/-- Sequential rounds of the worker. -/
noncomputable def run_rounds (s : StoreState) (batches : List (List DUpdate)) : StoreState :=
  batches.foldl aggregation_round s

/-- A single-scalar update (one layer `"w"` of shape `[1]`) used by the
concrete trimmed-mean instance. -/
def scalarUpdate (q : ℚ) : DUpdate := ⟨"c", [("w", ⟨[1], [q]⟩)], 1, false, .clean⟩

/-- A two-layer example weight map for the codec round trip. -/
def codecExample : WMap := [("alpha", ⟨[2], [1, 2]⟩), ("beta", ⟨[2, 1], [5, 7]⟩)]

/-- The per-layer contract of `_compute_delta` for one base entry: the delta
keeps the layer name and shape, has as many entries as the base layer, and is
`client - base` for a present matching-shape client layer, a zero array
otherwise. -/
def deltaEntryOk (client : FMap) (bse d : String × NArrF) : Prop :=
  d.1 = bse.1 ∧ d.2.shape = bse.2.shape ∧ d.2.data.length = bse.2.data.length
  ∧ (match client.lookup bse.1 with
     | some a =>
         if a.shape = bse.2.shape then d.2.data = List.zipWith subF a.data bse.2.data
         else d.2.data = List.replicate bse.2.shape.prod (.fin 0)
     | none => d.2.data = List.replicate bse.2.shape.prod (.fin 0))

/-- The in-place marking `filter_outliers` applies to a flagged update
(`u['_flagged'] = True; u['_flag_reason'] = reason`). -/
def markU (u : DUpdate) (r : DReason) : DUpdate := { u with flagged := true, flag_reason := r }

/-- `True` exactly when a flag reason is a `"norm_ratio:..."` string. -/
def isNormRatioReason : DReason → Bool
  | .normRatio _ => true
  | _ => false

/-- A client payload missing the `"b"` layer of `exBase`. -/
def exClient : FMap := [("W", ⟨[2], [.fin 5, .fin 6]⟩)]

/-- A two-layer global template. -/
def exBase : FMap := [("W", ⟨[2], [.fin 1, .fin 2]⟩), ("b", ⟨[1], [.fin 3]⟩)]

/-- A concrete engine state: one registered client, version 0, a single
two-entry layer `"W"`, empty buffer and no reference direction yet. -/
def cexState : EngineState :=
  ⟨[⟨"c1", 1, 0⟩], 0, [("W", ⟨[2], [.fin 0, .fin 0]⟩)], [], [], 0, 0, []⟩

instance (a : NArr) : Decidable (wfArr a) :=
  inferInstanceAs (Decidable (a.data.length = a.shape.prod))

/-! ## Helper lemmas -/

theorem sortQ_perm (l : List ℚ) : List.Perm (sortQ l) l := List.perm_insertionSort _ l

theorem length_sortQ (l : List ℚ) : (sortQ l).length = l.length := (sortQ_perm l).length_eq

theorem meanQ_sortQ (l : List ℚ) : meanQ (sortQ l) = meanQ l := by
  unfold meanQ
  rw [(sortQ_perm l).sum_eq, length_sortQ]

theorem trimmedCoord_eq_spec (xs : List ℚ) :
    trimmedCoord xs (trimK xs.length) xs.length = specTrimmedCoord xs trimRatio := by
  unfold trimmedCoord specTrimmedCoord trimK
  set n := xs.length with hn
  set k := max 1 ⌊(n : ℚ) * trimRatio⌋₊ with hk
  by_cases h : n ≤ 2 * k
  · have h0 : n - k - k = 0 := by omega
    simp [h0, h, meanQ_sortQ]
  · have h2 : n - k - k = n - 2 * k := by omega
    have hlen : (((sortQ xs).drop k).take (n - 2 * k)).length = n - 2 * k := by
      rw [List.length_take, List.length_drop, length_sortQ, ← hn]
      omega
    have hne : (((sortQ xs).drop k).take (n - 2 * k)).isEmpty = false := by
      apply Bool.eq_false_iff.mpr
      intro hemp
      rw [List.isEmpty_iff.mp hemp] at hlen
      simp at hlen
      omega
    rw [h2]
    simp [hne, h]

theorem sortByKey_eq_of_sorted {w : WMap} (h : List.Pairwise (fun a b => a.1 < b.1) w) :
    sortByKey w = w :=
  List.Sorted.insertionSort_eq (h.imp fun hab => le_of_lt hab)

theorem unflattenGo_flatten (l : List (String × NArr)) (h : ∀ kv ∈ l, wfArr kv.2) :
    unflattenGo ((l.map (fun kv => kv.2.data)).flatten) l = l := by
  induction l with
  | nil => rfl
  | cons kv tl ih =>
    obtain ⟨k, a⟩ := kv
    have ha : a.data.length = a.shape.prod := h (k, a) (List.mem_cons_self _ _)
    simp only [List.map_cons, List.flatten_cons, unflattenGo]
    rw [← ha, List.take_left, List.drop_left, ih (fun x hx => h x (by simp [hx]))]

theorem wf_codecExample : wfMap codecExample := by
  constructor
  · simp [codecExample, List.pairwise_cons, String.lt_iff_toList_lt]
    decide
  · decide

theorem of_lookup_eq_some {l : FMap} {k : String} {v : NArrF} (h : l.lookup k = some v) :
    (k, v) ∈ l := by
  induction l with
  | nil => simp [List.lookup] at h
  | cons kv tl ih =>
    rw [List.lookup] at h
    rcases hkv : (k == kv.1) with _ | _
    · rw [hkv] at h
      exact List.mem_cons_of_mem _ (ih h)
    · rw [hkv] at h
      obtain rfl := Option.some_injective _ h
      have : k = kv.1 := by simpa using hkv
      subst this
      exact List.mem_cons_self _ _

theorem compute_delta_forall₂ (client base : FMap)
    (hc : ∀ kv ∈ client, kv.2.data.length = kv.2.shape.prod)
    (hb : ∀ kv ∈ base, kv.2.data.length = kv.2.shape.prod) :
    List.Forall₂ (deltaEntryOk client) base (compute_delta client base) := by
  induction base with
  | nil => exact List.Forall₂.nil
  | cons kv tl ih =>
    simp only [compute_delta, List.map_cons]
    refine List.Forall₂.cons ?_ ?_
    case refine_2 =>
      have := ih (fun x hx => hb x (List.mem_cons_of_mem _ hx))
      simpa only [compute_delta] using this
    have hkv : kv.2.data.length = kv.2.shape.prod := hb kv (List.mem_cons_self _ _)
    simp only [deltaEntryOk]
    rcases hl : client.lookup kv.1 with _ | a
    · simp [hl, zeros_like, hkv]
    · have ha : a.data.length = a.shape.prod := hc (kv.1, a) (of_lookup_eq_some hl)
      by_cases hsh : a.shape = kv.2.shape
      · have hlen : a.data.length = kv.2.data.length := by rw [ha, hsh, ← hkv]
        simp [hl, hsh, List.length_zipWith, hlen]
      · simp [hl, hsh, zeros_like, hkv]

theorem map_eq_of_forall₂ {α β γ : Type} {R : α → β → Prop} {l1 : List α} {l2 : List β}
    (h : List.Forall₂ R l1 l2) (f : β → γ) (g : α → γ)
    (hfg : ∀ a b, R a b → f b = g a) : l2.map f = l1.map g := by
  induction h with
  | nil => rfl
  | cons hR _ ih => simp [hfg _ _ hR, ih]

theorem aggregation_round_commits {s : StoreState} {batch : List DUpdate}
    (h : (filter_outliers batch).1.isEmpty = false) :
    (aggregation_round s batch).round_id = s.round_id + 1 := by
  unfold aggregation_round
  have hb : batch.isEmpty = false := by
    cases batch with
    | nil => simp [filter_outliers, filterGo] at h
    | cons u tl => rfl
  rw [hb]
  simp [h, set_weights]

theorem run_rounds_version (s : StoreState) (batches : List (List DUpdate))
    (h : ∀ b ∈ batches, (filter_outliers b).1.isEmpty = false) :
    (run_rounds s batches).round_id = s.round_id + batches.length := by
  induction batches generalizing s with
  | nil => simp [run_rounds]
  | cons b tl ih =>
    have h1 : (run_rounds (aggregation_round s b) tl).round_id
        = (aggregation_round s b).round_id + tl.length :=
      ih (aggregation_round s b) (fun x hx => h x (List.mem_cons_of_mem _ hx))
    unfold run_rounds at h1 ⊢
    simp only [List.foldl_cons]
    rw [h1, aggregation_round_commits (h b (List.mem_cons_self _ _))]
    simp only [List.length_cons]
    omega

theorem is_outlier_congr (u : DUpdate) {b1 b2 : List DUpdate}
    (h : b1.map (fun v => v.weights) = b2.map (fun v => v.weights)) :
    is_outlier u b1 = is_outlier u b2 := by
  have hlen : b1.length = b2.length := by
    have := congrArg List.length h
    simpa using this
  have hfl : b1.map (fun v => flatten v.weights) = b2.map (fun v => flatten v.weights) := by
    have h2 := congrArg (List.map flatten) h
    rw [List.map_map, List.map_map] at h2
    simpa [Function.comp] using h2
  unfold is_outlier
  rw [hlen, hfl]

theorem filterGo_spec (todo : List DUpdate) : ∀ done done2 : List DUpdate,
    done.map (fun v => v.weights) = done2.map (fun v => v.weights) →
    (filterGo done todo).1 = todo.filter (fun u => !(is_outlier u (done2 ++ todo)).1)
    ∧ (filterGo done todo).2 = todo.map (fun u =>
        if (is_outlier u (done2 ++ todo)).1
        then markU u (is_outlier u (done2 ++ todo)).2 else u) := by
  induction todo with
  | nil => intro done done2 h; exact ⟨rfl, rfl⟩
  | cons u todo ih =>
    intro done done2 h
    have hbatch : is_outlier u (done ++ u :: todo) = is_outlier u (done2 ++ u :: todo) :=
      is_outlier_congr u (by simp [h])
    cases hflag : (is_outlier u (done2 ++ u :: todo)).1 with
    | false =>
      have ih2 := ih (done ++ [u]) (done2 ++ [u]) (by simp [h])
      rw [List.append_assoc, List.singleton_append] at ih2
      simp only [filterGo, hbatch, hflag, Bool.false_eq_true, if_false, List.filter_cons,
        List.map_cons, Bool.not_false, if_true]
      exact ⟨by rw [ih2.1], by rw [ih2.2]⟩
    | true =>
      have ih2 := ih (done ++ [markU u (is_outlier u (done2 ++ u :: todo)).2]) (done2 ++ [u])
        (by simp [h, markU])
      rw [List.append_assoc, List.singleton_append] at ih2
      simp only [markU] at ih2
      simp only [filterGo, hbatch, hflag, if_true, List.filter_cons, List.map_cons,
        Bool.not_true, Bool.false_eq_true, if_false, markU]
      exact ⟨by rw [ih2.1], by rw [ih2.2]⟩

theorem getD_append_left {l1 l2 : List ℝ} {i : ℕ} (h : i < l1.length) :
    (l1 ++ l2).getD i 0 = l1.getD i 0 := by
  simp [List.getD_eq_getElem?_getD, List.getElem?_append, h]

theorem getD_replicate_of_lt {m i : ℕ} {c : ℝ} (h : i < m) :
    (List.replicate m c).getD i 0 = c := by
  simp [List.getD_eq_getElem?_getD, List.getElem?_replicate, h]

theorem sort_high_outlier {c : ℝ} (hc : 0 < c) (l : List ℝ) (m : ℕ)
    (hperm : List.Perm l (List.replicate m c ++ [10 * c])) :
    List.insertionSort (fun a b : ℝ => a ≤ b) l = List.replicate m c ++ [10 * c] := by
  have hs2 : List.Sorted (fun a b : ℝ => a ≤ b) (List.replicate m c ++ [10 * c]) := by
    apply List.pairwise_append.mpr
    refine ⟨List.pairwise_replicate.mpr (Or.inr (le_refl c)), List.pairwise_singleton _ _, ?_⟩
    intro a ha b hb
    rw [List.eq_of_mem_replicate ha, List.mem_singleton.mp hb]
    nlinarith
  exact @List.eq_of_perm_of_sorted ℝ (fun a b => a ≤ b) _ _ _
    ((List.perm_insertionSort _ l).trans hperm) (List.sorted_insertionSort _ l) hs2

theorem npMedian_high_outlier {c : ℝ} (hc : 0 < c) (l : List ℝ) (m : ℕ) (hm : 2 ≤ m)
    (hperm : List.Perm l (List.replicate m c ++ [10 * c])) :
    npMedian l = c := by
  have hlen : l.length = m + 1 := by
    rw [hperm.length_eq]
    simp
  unfold npMedian
  rw [sort_high_outlier hc l m hperm, hlen]
  have hrep : (List.replicate m c).length = m := List.length_replicate m c
  by_cases hpar : (m + 1) % 2 = 1
  · rw [if_pos hpar]
    rw [getD_append_left (by rw [hrep]; omega), getD_replicate_of_lt (by omega)]
  · rw [if_neg hpar]
    have hodd : m % 2 = 1 := by omega
    have h3 : 3 ≤ m := by omega
    rw [getD_append_left (by rw [hrep]; omega), getD_append_left (by rw [hrep]; omega),
      getD_replicate_of_lt (by omega), getD_replicate_of_lt (by omega)]
    ring

theorem is_outlier_norm_iff (u : DUpdate) (batch : List DUpdate) (h2 : 2 ≤ batch.length) :
    (isNormRatioReason (is_outlier u batch).2 = true
      ↔ nrm (flatten u.weights)
          / (npMedian (batch.map (fun v => nrm (flatten v.weights))) + 1e-9) > normRatioLimit)
    ∧ (nrm (flatten u.weights)
          / (npMedian (batch.map (fun v => nrm (flatten v.weights))) + 1e-9) > normRatioLimit →
        is_outlier u batch
          = (true, .normRatio (nrm (flatten u.weights)
              / (npMedian (batch.map (fun v => nrm (flatten v.weights))) + 1e-9)))) := by
  have hn2 : ¬ batch.length < 2 := by omega
  simp only [is_outlier, List.map_map, Function.comp_def]
  rw [if_neg hn2]
  by_cases hr : nrm (flatten u.weights)
      / (npMedian (batch.map (fun v => nrm (flatten v.weights))) + 1e-9) > normRatioLimit
  · rw [if_pos hr]
    exact ⟨by simp [isNormRatioReason, hr], fun _ => rfl⟩
  · rw [if_neg hr]
    split_ifs with hcos <;>
      exact ⟨by simp [isNormRatioReason, hr], fun h => absurd h hr⟩

theorem norm_ratio_scenario (pre post : List DUpdate) (u : DUpdate) (c : ℝ)
    (hc : (1e-9 : ℝ) < c)
    (hothers : ∀ v ∈ pre ++ post, nrm (flatten v.weights) = c)
    (hu : nrm (flatten u.weights) = 10 * c)
    (hlen : 3 ≤ (pre ++ u :: post).length) :
    is_outlier u (pre ++ u :: post)
      = (true, .normRatio (nrm (flatten u.weights)
          / (npMedian ((pre ++ u :: post).map (fun v => nrm (flatten v.weights))) + 1e-9)))
    ∧ ∀ v ∈ pre ++ post, isNormRatioReason (is_outlier v (pre ++ u :: post)).2 = false := by
  have hcpos : (0 : ℝ) < c := lt_trans (by norm_num) hc
  have hlens : 3 ≤ pre.length + post.length + 1 := by
    have h := hlen
    simp only [List.length_append, List.length_cons] at h
    omega
  have h2 : 2 ≤ (pre ++ u :: post).length := by
    simp only [List.length_append, List.length_cons]
    omega
  have hpre : pre.map (fun v => nrm (flatten v.weights)) = List.replicate pre.length c := by
    refine List.eq_replicate_iff.mpr ⟨by simp, ?_⟩
    intro b hb
    obtain ⟨v, hv, rfl⟩ := List.mem_map.mp hb
    exact hothers v (List.mem_append.mpr (Or.inl hv))
  have hpost : post.map (fun v => nrm (flatten v.weights)) = List.replicate post.length c := by
    refine List.eq_replicate_iff.mpr ⟨by simp, ?_⟩
    intro b hb
    obtain ⟨v, hv, rfl⟩ := List.mem_map.mp hb
    exact hothers v (List.mem_append.mpr (Or.inr hv))
  have hperm : List.Perm ((pre ++ u :: post).map (fun v => nrm (flatten v.weights)))
      (List.replicate (pre.length + post.length) c ++ [10 * c]) := by
    rw [List.map_append, List.map_cons, hpre, hpost, hu]
    refine List.Perm.trans List.perm_middle ?_
    rw [← List.replicate_add]
    exact (List.perm_append_singleton _ _).symm
  have hmed : npMedian ((pre ++ u :: post).map (fun v => nrm (flatten v.weights))) = c :=
    npMedian_high_outlier hcpos _ (pre.length + post.length) (by omega) hperm
  have hden : (0 : ℝ) < c + 1e-9 := by linarith
  have hratio_u : nrm (flatten u.weights)
      / (npMedian ((pre ++ u :: post).map (fun v => nrm (flatten v.weights))) + 1e-9)
        > normRatioLimit := by
    rw [hmed, hu]
    unfold normRatioLimit
    rw [gt_iff_lt, lt_div_iff₀ hden]
    nlinarith
  refine ⟨?_, ?_⟩
  · exact (is_outlier_norm_iff u (pre ++ u :: post) h2).2 hratio_u
  · intro v hv
    have hratio_v : ¬ (nrm (flatten v.weights)
        / (npMedian ((pre ++ u :: post).map (fun w => nrm (flatten w.weights))) + 1e-9)
          > normRatioLimit) := by
      rw [hmed, hothers v hv]
      unfold normRatioLimit
      rw [gt_iff_lt, not_lt]
      rw [div_le_iff₀ hden]
      nlinarith
    apply Bool.eq_false_iff.mpr
    intro htrue
    exact hratio_v ((is_outlier_norm_iff v (pre ++ u :: post) h2).1.mp htrue)

theorem normR_singleton (x : ℝ) (hx : 0 ≤ x) : normR [x] = x := by
  unfold normR sumSqR
  simp only [List.map_cons, List.map_nil, List.sum_cons, List.sum_nil, add_zero]
  exact Real.sqrt_mul_self hx

theorem nrm_singleton (q : ℚ) (hq : 0 ≤ q) : nrm [q] = (q : ℝ) := by
  show normR (castVec [q]) = (q : ℝ)
  have h : castVec [q] = [(q : ℝ)] := rfl
  rw [h]
  exact normR_singleton _ (by exact_mod_cast hq)

theorem npMedian_three_sorted (a b : ℝ) (hab : a ≤ b) : npMedian [a, a, b] = a := by
  have hsort : List.Sorted (fun x y : ℝ => x ≤ y) [a, a, b] := by
    simp [List.sorted_cons, hab]
  have hs : List.insertionSort (fun x y : ℝ => x ≤ y) [a, a, b] = [a, a, b] :=
    List.Sorted.insertionSort_eq hsort
  unfold npMedian
  rw [hs]
  norm_num [List.getD]

theorem cosine_sim_single_pos (x y : ℝ) (hx : (1e-12 : ℝ) ≤ x) (hy : (1e-12 : ℝ) ≤ y) :
    cosine_sim [x] [y] = 1 := by
  have hx0 : (0 : ℝ) < x := lt_of_lt_of_le (by norm_num) hx
  have hy0 : (0 : ℝ) < y := lt_of_lt_of_le (by norm_num) hy
  unfold cosine_sim
  rw [normR_singleton x (le_of_lt hx0), normR_singleton y (le_of_lt hy0)]
  rw [if_neg (by push_neg; exact ⟨le_trans hx (le_refl x), hy⟩)]
  unfold dotR
  simp only [List.zipWith_cons_cons, List.zipWith_nil_right, List.sum_cons, List.sum_nil,
    add_zero]
  exact div_self (by positivity)

theorem mulF_one (v : FVal) : mulF v (.fin 1) = v := by
  cases v <;> simp [mulF]

theorem scaleW_one (w : FMap) : scaleW 1 w = w := by
  unfold scaleW
  induction w with
  | nil => rfl
  | cons kv tl ih =>
    simp only [List.map_cons] at ih ⊢
    rw [ih]
    simp [mulF_one]

/-! ## Claim theorems -/

/-- C4: `filter_outliers` returns exactly the updates that `is_outlier` judges
clean against the full unfiltered batch, in their original relative order, and
the batch after the call holds every update, the excluded ones marked flagged
with their reason, for audit logging. -/
theorem filter_outliers_spec (updates : List DUpdate) :
    (filter_outliers updates).1
      = updates.filter (fun u => !(is_outlier u updates).1)
    ∧ (filter_outliers updates).2
      = updates.map (fun u =>
          if (is_outlier u updates).1
          then markU u (is_outlier u updates).2 else u) := by
  have h := filterGo_spec updates [] [] rfl
  simpa [filter_outliers] using h

/-- C2: the trimmed-mean aggregator sorts each coordinate's `n` contributed
values, drops `k = max(1, floor(n * TRIM_RATIO))` from each tail and averages
the remainder, falling back to the untrimmed mean when `n - 2k ≤ 0`
(first conjunct: the code's per-coordinate computation equals the spec's
description, for every column); with `TRIM_RATIO = 0.2`, five single-scalar
updates `[1,2,3,4,5]` aggregate to `3` (second conjunct). -/
theorem trimmed_mean_matches_spec :
    (∀ xs : List ℚ,
        trimmedCoord xs (trimK xs.length) xs.length = specTrimmedCoord xs trimRatio)
    ∧ trimmed_mean_det
        [scalarUpdate 1, scalarUpdate 2, scalarUpdate 3, scalarUpdate 4, scalarUpdate 5]
        (scalarUpdate 1).weights
      = [("w", ⟨[1], [3]⟩)] := by
  constructor
  · exact trimmedCoord_eq_spec
  · norm_num [trimmed_mean_det, scalarUpdate, flatten, sortByKey, keyLE, column, trimK,
      trimRatio, trimmedCoord, sortQ, meanQ, unflatten, unflattenGo, List.range_succ]

/-- C6: for every well-formed weight map `w` (strictly sorted layer names —
the canonical form of a Python dict — and rectangular layers),
`unflatten(flatten(w), w) = w`. -/
theorem unflatten_flatten (w : WMap) (hw : wfMap w) : unflatten (flatten w) w = w := by
  obtain ⟨hsorted, hwf⟩ := hw
  unfold unflatten flatten
  rw [sortByKey_eq_of_sorted hsorted]
  exact unflattenGo_flatten w hwf

/-- Witness for C6: the round trip evaluated on a concrete two-layer map. -/
theorem unflatten_flatten_witness :
    unflatten (flatten codecExample) codecExample = codecExample :=
  unflatten_flatten codecExample wf_codecExample

/-- C5: `aggregate` sanitizes every output coordinate before returning —
`NaN ↦ 0.0`, `+Inf ↦ 1e6`, `-Inf ↦ -1e6`, finite values unchanged (first
conjunct); a sanitized map contains only finite coordinates (second conjunct);
and `aggregate` is exactly the selected algorithm's result passed through the
sanitizer, so no NaN/Inf ever reaches the model store (third conjunct). -/
theorem aggregate_sanitized :
    (nan_to_num .nan = 0 ∧ nan_to_num .pinf = 1e6 ∧ nan_to_num .ninf = -(1e6)
      ∧ ∀ q : ℚ, nan_to_num (.fin q) = q)
    ∧ (∀ w : FMap, (sanitizeW w).all (fun kv => kv.2.data.all isFiniteF) = true)
    ∧ (∀ (updates : List DUpdate) (template : WMap) (algo : Option String),
        aggregate updates template algo
          = toQMap (sanitizeW (toFMap (aggregateRaw updates template algo)))) := by
  refine ⟨⟨rfl, rfl, rfl, fun q => rfl⟩, ?_, fun _ _ _ => rfl⟩
  intro w
  rw [List.all_eq_true]
  intro kv hkv
  rw [List.all_eq_true]
  intro v hv
  simp only [sanitizeW, List.mem_map] at hkv
  obtain ⟨kv0, _, rfl⟩ := hkv
  simp only [List.mem_map] at hv
  obtain ⟨v0, _, rfl⟩ := hv
  rfl

/-- C10: `update_client_trust` keeps `trust_score` within `[0, 1]` whenever it
starts there; acceptance adds `0.01` capped at `1.0` and leaves
`rejected_count` alone; rejection subtracts `0.2` floored at `0.0` and
increments `rejected_count` by exactly one; the record's other fields are
unchanged. -/
theorem update_client_trust_bounds (c : Client) (h0 : 0 ≤ c.trust_score)
    (h1 : c.trust_score ≤ 1) :
    (∀ b : Bool, 0 ≤ (update_client_trust c b).trust_score
        ∧ (update_client_trust c b).trust_score ≤ 1)
    ∧ (update_client_trust c true).trust_score = min 1 (c.trust_score + 0.01)
    ∧ (update_client_trust c true).rejected_count = c.rejected_count
    ∧ (update_client_trust c false).trust_score = max 0 (c.trust_score - 0.2)
    ∧ (update_client_trust c false).rejected_count = c.rejected_count + 1
    ∧ (∀ b : Bool, (update_client_trust c b).client_id = c.client_id) := by
  refine ⟨?_, by simp [update_client_trust], by simp [update_client_trust],
    by simp [update_client_trust], by simp [update_client_trust], ?_⟩
  · intro b
    cases b
    · simp only [update_client_trust, Bool.false_eq_true, if_false]
      constructor
      · exact le_max_left 0 _
      · apply max_le (by norm_num) (by linarith)
    · simp only [update_client_trust, if_true]
      constructor
      · apply le_min (by norm_num) (by linarith)
      · exact min_le_left 1 _
  · intro b
    cases b <;> simp [update_client_trust]

/-- C8: for every layer of the base weights the computed delta contains that
layer — `client - base` when the client supplies a matching-shape array, an
all-zero array of the base layer's shape when the layer is absent or
mismatched — so the delta's layer names and flattened length always equal the
base's, with no skipped positions. -/
theorem compute_delta_spec (client base : FMap)
    (hc : ∀ kv ∈ client, kv.2.data.length = kv.2.shape.prod)
    (hb : ∀ kv ∈ base, kv.2.data.length = kv.2.shape.prod) :
    List.Forall₂ (deltaEntryOk client) base (compute_delta client base)
    ∧ (compute_delta client base).map Prod.fst = base.map Prod.fst
    ∧ ((compute_delta client base).map (fun kv => kv.2.data.length)).sum
        = (base.map (fun kv => kv.2.data.length)).sum := by
  have hF := compute_delta_forall₂ client base hc hb
  refine ⟨hF, ?_, ?_⟩
  · exact map_eq_of_forall₂ hF Prod.fst Prod.fst (fun a b hab => hab.1)
  · rw [map_eq_of_forall₂ hF (fun kv => kv.2.data.length) (fun kv => kv.2.data.length)
      (fun a b hab => hab.2.2.1)]

/-- Witness for C8: the delta of a payload missing one layer, evaluated
concretely. -/
theorem compute_delta_witness :
    List.Forall₂ (deltaEntryOk exClient) exBase (compute_delta exClient exBase)
    ∧ (compute_delta exClient exBase).map Prod.fst = exBase.map Prod.fst
    ∧ ((compute_delta exClient exBase).map (fun kv => kv.2.data.length)).sum
        = (exBase.map (fun kv => kv.2.data.length)).sum :=
  compute_delta_spec exClient exBase (by decide) (by decide)

/-- C1: each commit to the model store increments the version by exactly 1
(first conjunct); a round whose batch is entirely flagged (empty clean set)
commits nothing and leaves the store untouched (second conjunct); and N
sequentially committing rounds starting from version 0 end at version N
(third conjunct). -/
theorem version_increments :
    (∀ (s : StoreState) (w : WMap), (set_weights s w).1 = s.round_id + 1
        ∧ (set_weights s w).2.round_id = s.round_id + 1)
    ∧ (∀ (s : StoreState) (batch : List DUpdate),
        (filter_outliers batch).1.isEmpty = true → aggregation_round s batch = s)
    ∧ (∀ (w0 : WMap) (batches : List (List DUpdate)),
        (∀ b ∈ batches, (filter_outliers b).1.isEmpty = false) →
        (run_rounds ⟨0, w0⟩ batches).round_id = batches.length) := by
  refine ⟨fun s w => ⟨rfl, rfl⟩, ?_, ?_⟩
  · intro s batch h
    unfold aggregation_round
    by_cases hb : batch.isEmpty
    · rw [if_pos hb]
    · rw [if_neg hb, if_pos h]
  · intro w0 batches h
    have := run_rounds_version ⟨0, w0⟩ batches h
    simpa using this

/-- Witness for C1: two committing singleton rounds from version 0 end at
version 2. -/
theorem version_increments_witness :
    (run_rounds ⟨0, []⟩ [[scalarUpdate 1], [scalarUpdate 2]]).round_id = 2 := by
  have h := version_increments.2.2 [] [[scalarUpdate 1], [scalarUpdate 2]] ?_
  · simpa using h
  · intro b hb
    simp only [List.mem_cons, List.not_mem_nil, or_false] at hb
    rcases hb with rfl | rfl <;> simp [filter_outliers, filterGo, is_outlier]

/-- Witness for C10: the trust update evaluated on a concrete client record
with `trust_score = 1/2`. -/
theorem update_client_trust_witness :
    (∀ b : Bool, 0 ≤ (update_client_trust ⟨"x", 1/2, 3⟩ b).trust_score
        ∧ (update_client_trust ⟨"x", 1/2, 3⟩ b).trust_score ≤ 1)
    ∧ (update_client_trust ⟨"x", 1/2, 3⟩ true).trust_score = min 1 (1/2 + 0.01)
    ∧ (update_client_trust ⟨"x", 1/2, 3⟩ true).rejected_count = 3
    ∧ (update_client_trust ⟨"x", 1/2, 3⟩ false).trust_score = max 0 (1/2 - 0.2)
    ∧ (update_client_trust ⟨"x", 1/2, 3⟩ false).rejected_count = 3 + 1
    ∧ (∀ b : Bool, (update_client_trust ⟨"x", 1/2, 3⟩ b).client_id = "x") :=
  update_client_trust_bounds ⟨"x", 1/2, 3⟩ (by norm_num) (by norm_num)

/-- C3 (amended): in a batch of at least 2 updates, `is_outlier` flags an
update with a `norm_ratio` reason exactly when the L2 norm of its flattened
delta divided by (the batch's median norm + 1e-9) exceeds `NORM_RATIO = 5.0`,
and the reason carries that ratio (first conjunct); in a batch of at least 3
updates whose other members share a common norm `c` strictly greater than the
`1e-9` epsilon guard and one member has norm `10c`, exactly that member is
marked with a `norm_ratio` reason (second conjunct). -/
theorem norm_ratio_check :
    (∀ (u : DUpdate) (batch : List DUpdate), 2 ≤ batch.length →
      (isNormRatioReason (is_outlier u batch).2 = true
        ↔ nrm (flatten u.weights)
            / (npMedian (batch.map (fun v => nrm (flatten v.weights))) + 1e-9) > normRatioLimit)
      ∧ (nrm (flatten u.weights)
            / (npMedian (batch.map (fun v => nrm (flatten v.weights))) + 1e-9) > normRatioLimit →
          is_outlier u batch
            = (true, .normRatio (nrm (flatten u.weights)
                / (npMedian (batch.map (fun v => nrm (flatten v.weights))) + 1e-9)))))
    ∧ (∀ (pre post : List DUpdate) (u : DUpdate) (c : ℝ),
        (1e-9 : ℝ) < c →
        (∀ v ∈ pre ++ post, nrm (flatten v.weights) = c) →
        nrm (flatten u.weights) = 10 * c →
        3 ≤ (pre ++ u :: post).length →
        is_outlier u (pre ++ u :: post)
          = (true, .normRatio (nrm (flatten u.weights)
              / (npMedian ((pre ++ u :: post).map (fun v => nrm (flatten v.weights))) + 1e-9)))
        ∧ ∀ v ∈ pre ++ post, isNormRatioReason (is_outlier v (pre ++ u :: post)).2 = false) :=
  ⟨is_outlier_norm_iff, norm_ratio_scenario⟩

/-- Counterexample to C3 as stated: in this batch of 3 updates one vector's
norm is exactly 10 times the (positive) common norm of the others, yet
`is_outlier` reports it clean — the common norm `1e-10` is below the `1e-9`
epsilon guard, so the ratio `1e-9/(1e-10 + 1e-9)` stays under 5. -/
theorem norm_ratio_counterexample :
    ([scalarUpdate (1e-10), scalarUpdate (1e-10), scalarUpdate (1e-9)] : List DUpdate).length = 3
    ∧ (0 : ℝ) < nrm (flatten (scalarUpdate (1e-10)).weights)
    ∧ nrm (flatten (scalarUpdate (1e-9)).weights)
        = 10 * nrm (flatten (scalarUpdate (1e-10)).weights)
    ∧ is_outlier (scalarUpdate (1e-9))
        [scalarUpdate (1e-10), scalarUpdate (1e-10), scalarUpdate (1e-9)]
      = (false, .clean) := by
  have hf9 : flatten (scalarUpdate (1e-9)).weights = [(1e-9 : ℚ)] := rfl
  have hf10 : flatten (scalarUpdate (1e-10)).weights = [(1e-10 : ℚ)] := rfl
  have hn9 : nrm [(1e-9 : ℚ)] = (1e-9 : ℝ) := by
    rw [nrm_singleton (1e-9) (by norm_num)]
    norm_num
  have hn10 : nrm [(1e-10 : ℚ)] = (1e-10 : ℝ) := by
    rw [nrm_singleton (1e-10) (by norm_num)]
    norm_num
  have hmed : npMedian [(1e-10 : ℝ), 1e-10, 1e-9] = 1e-10 :=
    npMedian_three_sorted (1e-10) (1e-9) (by norm_num)
  refine ⟨rfl, ?_, ?_, ?_⟩
  · rw [hf10, hn10]
    norm_num
  · rw [hf9, hf10, hn9, hn10]
    norm_num
  · simp only [is_outlier]
    rw [if_neg (by simp : ¬ ([scalarUpdate (1e-10), scalarUpdate (1e-10),
      scalarUpdate (1e-9)] : List DUpdate).length < 2)]
    simp only [List.map_cons, List.map_nil, hf9, hf10, hn9, hn10, hmed]
    rw [if_neg (by norm_num [normRatioLimit] :
      ¬ (1e-9 : ℝ) / (1e-10 + 1e-9) > normRatioLimit)]
    have hc10 : (((1e-10 : ℚ) : ℝ)) = (1e-10 : ℝ) := by norm_num
    have hc9 : (((1e-9 : ℚ) : ℝ)) = (1e-9 : ℝ) := by norm_num
    have hcv : castVec [(1e-9 : ℚ)] = [(1e-9 : ℝ)] := by
      show [((1e-9 : ℚ) : ℝ)] = [(1e-9 : ℝ)]
      rw [hc9]
    simp only [List.headD_cons, List.length_cons, List.length_nil, List.range_succ,
      List.range_zero, List.getD_cons_zero, List.nil_append, List.map_cons, List.map_nil,
      hc10, hc9, hmed, hcv]
    rw [if_neg]
    rw [cosine_sim_single_pos (1e-9) (1e-10) (by norm_num) (by norm_num)]
    norm_num [cosThresholdCfg]

/-- C7: in the buffer-based engine every accepted update's delta is scaled by
`1/(1 + staleness)` with `staleness = max(0, current_version - base_version)`
before buffering (first two conjuncts: the buffered entry, and the batch the
full-buffer aggregation consumes, are the scaled delta); an update whose
`base_version` equals the current version is buffered with its delta exactly
unscaled (third conjunct); and whether an update is rejected never depends on
its `base_version` (fourth conjunct). -/
theorem staleness_discount (s : EngineState) (cid : String) (cw : FMap) (bv : ℤ) :
    (∀ (d : ℕ) (st : ℤ) (sc : ℚ), (process_update s cid cw bv).1 = .buffered d st sc →
      (process_update s cid cw bv).2.buffer
        = s.buffer ++ [scaleW (1 / (1 + ((max 0 (s.currentVersion - bv) : ℤ) : ℚ)))
            (compute_delta cw s.baseWeights)])
    ∧ (∀ nv : ℤ, (process_update s cid cw bv).1 = .accepted nv →
        (process_update s cid cw bv).2.baseWeights
          = apply_delta s.baseWeights (trimmed_mean_eng
              (s.buffer ++ [scaleW (1 / (1 + ((max 0 (s.currentVersion - bv) : ℤ) : ℚ)))
                (compute_delta cw s.baseWeights)]) (1/10)))
    ∧ (bv = s.currentVersion →
        scaleW (1 / (1 + ((max 0 (s.currentVersion - bv) : ℤ) : ℚ)))
            (compute_delta cw s.baseWeights)
          = compute_delta cw s.baseWeights)
    ∧ (∀ bv2 : ℤ, isRejectedE (process_update s cid cw bv).1
        = isRejectedE (process_update s cid cw bv2).1) := by
  refine ⟨?_, ?_, ?_, ?_⟩
  · intro d st sc h
    unfold process_update at h ⊢
    by_cases h1 : ¬ s.clients.any (fun c => c.client_id = cid) = true
    · rw [if_pos h1] at h
      exact absurd h (by simp)
    · rw [if_neg h1] at h ⊢
      by_cases h2 : (validate_update (compute_delta cw s.baseWeights) NORM_THRESHOLD).1 = false
      · rw [if_pos h2] at h
        exact absurd h (by simp)
      · rw [if_neg h2] at h ⊢
        by_cases h3 : (cosine_similarity_check (compute_delta cw s.baseWeights) s.refDir
            COSINE_THRESHOLD).1 = false
        · rw [if_pos h3] at h
          exact absurd h (by simp)
        · rw [if_neg h3] at h ⊢
          by_cases h4 : BUFFER_SIZE ≤ (s.buffer
              ++ [scaleW (1 / (1 + ((max 0 (s.currentVersion - bv) : ℤ) : ℚ)))
                  (compute_delta cw s.baseWeights)]).length
          · rw [if_pos h4] at h
            exact absurd h (by simp)
          · rw [if_neg h4]
  · intro nv h
    unfold process_update at h ⊢
    by_cases h1 : ¬ s.clients.any (fun c => c.client_id = cid) = true
    · rw [if_pos h1] at h
      exact absurd h (by simp)
    · rw [if_neg h1] at h ⊢
      by_cases h2 : (validate_update (compute_delta cw s.baseWeights) NORM_THRESHOLD).1 = false
      · rw [if_pos h2] at h
        exact absurd h (by simp)
      · rw [if_neg h2] at h ⊢
        by_cases h3 : (cosine_similarity_check (compute_delta cw s.baseWeights) s.refDir
            COSINE_THRESHOLD).1 = false
        · rw [if_pos h3] at h
          exact absurd h (by simp)
        · rw [if_neg h3] at h ⊢
          by_cases h4 : BUFFER_SIZE ≤ (s.buffer
              ++ [scaleW (1 / (1 + ((max 0 (s.currentVersion - bv) : ℤ) : ℚ)))
                  (compute_delta cw s.baseWeights)]).length
          · rw [if_pos h4]
          · rw [if_neg h4] at h
            exact absurd h (by simp)
  · intro h
    rw [h]
    have h0 : max 0 (s.currentVersion - s.currentVersion) = (0 : ℤ) := by omega
    rw [h0]
    norm_num
    exact scaleW_one _
  · intro bv2
    unfold process_update
    by_cases h1 : ¬ s.clients.any (fun c => c.client_id = cid) = true
    · rw [if_pos h1, if_pos h1]
    · rw [if_neg h1, if_neg h1]
      by_cases h2 : (validate_update (compute_delta cw s.baseWeights) NORM_THRESHOLD).1 = false
      · rw [if_pos h2, if_pos h2]
      · rw [if_neg h2, if_neg h2]
        by_cases h3 : (cosine_similarity_check (compute_delta cw s.baseWeights) s.refDir
            COSINE_THRESHOLD).1 = false
        · rw [if_pos h3, if_pos h3]
        · rw [if_neg h3, if_neg h3]
          by_cases h4 : BUFFER_SIZE ≤ (s.buffer
              ++ [scaleW (1 / (1 + ((max 0 (s.currentVersion - bv) : ℤ) : ℚ)))
                  (compute_delta cw s.baseWeights)]).length
          · rw [if_pos h4]
            by_cases h5 : BUFFER_SIZE ≤ (s.buffer
                ++ [scaleW (1 / (1 + ((max 0 (s.currentVersion - bv2) : ℤ) : ℚ)))
                    (compute_delta cw s.baseWeights)]).length
            · rw [if_pos h5]
            · rw [if_neg h5]
              simp [isRejectedE]
          · rw [if_neg h4]
            by_cases h5 : BUFFER_SIZE ≤ (s.buffer
                ++ [scaleW (1 / (1 + ((max 0 (s.currentVersion - bv2) : ℤ) : ℚ)))
                    (compute_delta cw s.baseWeights)]).length
            · rw [if_pos h5]
              simp [isRejectedE]
            · rw [if_neg h5]
              simp [isRejectedE]

/-- C9 (amended): a rejected update leaves the pending buffer, the current
version and the global weights unchanged (first conjunct); for an authorized
client, admission rejects with the validator's reason whenever
`validate_update` fails on the computed delta (second conjunct); the validator
fails exactly on a delta whose L2 norm exceeds the absolute ceiling or which
contains NaN/Inf in some layer (third and fourth conjuncts).  Missing or
shape-mismatched layers are zero-filled in the delta (see C8) and do not by
themselves cause rejection. -/
theorem admission_rejection (s : EngineState) (cid : String) (cw : FMap) (bv : ℤ) :
    (∀ r : EReason, (process_update s cid cw bv).1 = .rejected r →
        (process_update s cid cw bv).2.buffer = s.buffer
        ∧ (process_update s cid cw bv).2.currentVersion = s.currentVersion
        ∧ (process_update s cid cw bv).2.baseWeights = s.baseWeights)
    ∧ (s.clients.any (fun c => c.client_id = cid) = true →
        ∀ r : EReason,
          validate_update (compute_delta cw s.baseWeights) NORM_THRESHOLD = (false, r) →
          (process_update s cid cw bv).1 = .rejected r)
    ∧ (normExceeds (compute_delta cw s.baseWeights) NORM_THRESHOLD →
        validate_update (compute_delta cw s.baseWeights) NORM_THRESHOLD = (false, .normTooLarge))
    ∧ (∀ k : String, ¬ normExceeds (compute_delta cw s.baseWeights) NORM_THRESHOLD →
        firstBadLayer (compute_delta cw s.baseWeights) = some k →
        validate_update (compute_delta cw s.baseWeights) NORM_THRESHOLD = (false, .nanInLayer k)) := by
  refine ⟨?_, ?_, ?_, ?_⟩
  · intro r h
    unfold process_update at h ⊢
    by_cases h1 : ¬ s.clients.any (fun c => c.client_id = cid) = true
    · rw [if_pos h1] at h ⊢
      exact ⟨rfl, rfl, rfl⟩
    · rw [if_neg h1] at h ⊢
      by_cases h2 : (validate_update (compute_delta cw s.baseWeights) NORM_THRESHOLD).1 = false
      · rw [if_pos h2] at h ⊢
        exact ⟨rfl, rfl, rfl⟩
      · rw [if_neg h2] at h ⊢
        by_cases h3 : (cosine_similarity_check (compute_delta cw s.baseWeights) s.refDir
            COSINE_THRESHOLD).1 = false
        · rw [if_pos h3] at h ⊢
          exact ⟨rfl, rfl, rfl⟩
        · rw [if_neg h3] at h ⊢
          by_cases h4 : BUFFER_SIZE ≤ (s.buffer
              ++ [scaleW (1 / (1 + ((max 0 (s.currentVersion - bv) : ℤ) : ℚ)))
                  (compute_delta cw s.baseWeights)]).length
          · rw [if_pos h4] at h
            exact absurd h (by simp)
          · rw [if_neg h4] at h
            exact absurd h (by simp)
  · intro hauth r hv
    unfold process_update
    rw [if_neg (by simp [hauth])]
    rw [if_pos (by rw [hv])]
    rw [hv]
  · intro hex
    unfold validate_update
    rw [if_pos hex]
  · intro k hnex hbad
    unfold validate_update
    rw [if_neg hnex, hbad]

/-- Counterexample to C9 as stated: a payload missing every layer of the
current template is not rejected — the missing layer is zero-filled, the
zero delta passes validation, and the update is buffered (status
`buffered`, buffer grows to length 1). -/
theorem admission_counterexample :
    (([] : FMap).lookup "W" = none)
    ∧ (cexState.baseWeights.map Prod.fst = ["W"])
    ∧ (process_update cexState "c1" [] 0).1 = .buffered 1 0 1
    ∧ (process_update cexState "c1" [] 0).2.buffer.length = 1 := by
  have hdelta : compute_delta [] cexState.baseWeights
      = [("W", ⟨[2], [.fin 0, .fin 0]⟩)] := by decide
  have htot : totalSqF (compute_delta [] cexState.baseWeights) = .fin 0 := by
    rw [hdelta]
    show addF (.fin 0) (sumF (List.map sqF [.fin 0, .fin 0])) = .fin 0
    norm_num [sumF, addF, sqF, mulF]
  have hnex : ¬ normExceeds (compute_delta [] cexState.baseWeights) NORM_THRESHOLD := by
    unfold normExceeds
    rw [htot]
    simp [NORM_THRESHOLD, Real.sqrt_zero]
  have hbad : firstBadLayer (compute_delta [] cexState.baseWeights) = none := by
    rw [hdelta]
    decide
  have hval : validate_update (compute_delta [] cexState.baseWeights) NORM_THRESHOLD
      = (true, .valid) := by
    unfold validate_update
    rw [if_neg hnex, hbad]
  have hcos : cosine_similarity_check (compute_delta [] cexState.baseWeights)
      cexState.refDir COSINE_THRESHOLD = (true, .noReferenceYet) := by
    unfold cosine_similarity_check
    rw [if_pos (show (cexState.refDir : FMap).isEmpty = true from rfl)]
  refine ⟨rfl, rfl, ?_, ?_⟩
  · unfold process_update
    rw [if_neg (by simp [cexState])]
    rw [if_neg (by rw [hval]; simp)]
    rw [if_neg (by rw [hcos]; simp)]
    rw [if_neg (by simp [cexState, BUFFER_SIZE])]
    show EStatus.buffered _ _ _ = _
    simp [cexState]
  · unfold process_update
    rw [if_neg (by simp [cexState])]
    rw [if_neg (by rw [hval]; simp)]
    rw [if_neg (by rw [hcos]; simp)]
    rw [if_neg (by simp [cexState, BUFFER_SIZE])]
    simp [cexState]

/-- Witness for C9 (amended): a payload carrying NaN in a matching-shape layer
is rejected with the NaN reason and the buffer stays empty. -/
theorem admission_rejection_witness :
    (process_update cexState "c1" [("W", ⟨[2], [.nan, .fin 0]⟩)] 0).1
      = .rejected (.nanInLayer "W")
    ∧ (process_update cexState "c1" [("W", ⟨[2], [.nan, .fin 0]⟩)] 0).2.buffer = [] := by
  have hdelta : compute_delta [("W", ⟨[2], [.nan, .fin 0]⟩)] cexState.baseWeights
      = [("W", ⟨[2], [.nan, .fin 0]⟩)] := by
    show [("W", (⟨[2], List.zipWith subF [.nan, .fin 0] [.fin 0, .fin 0]⟩ : NArrF))] = _
    norm_num [subF]
  have htot : totalSqF (compute_delta [("W", ⟨[2], [.nan, .fin 0]⟩)] cexState.baseWeights)
      = .nan := by
    rw [hdelta]
    show addF (.fin 0) (sumF (List.map sqF [.nan, .fin 0])) = .nan
    norm_num [sumF, addF, sqF, mulF]
  have hnex : ¬ normExceeds (compute_delta [("W", ⟨[2], [.nan, .fin 0]⟩)] cexState.baseWeights)
      NORM_THRESHOLD := by
    unfold normExceeds
    rw [htot]
    simp
  have hbad : firstBadLayer (compute_delta [("W", ⟨[2], [.nan, .fin 0]⟩)] cexState.baseWeights)
      = some "W" := by
    rw [hdelta]
    decide
  have hval := (admission_rejection cexState "c1" [("W", ⟨[2], [.nan, .fin 0]⟩)] 0).2.2.2
    "W" hnex hbad
  have hrej := (admission_rejection cexState "c1" [("W", ⟨[2], [.nan, .fin 0]⟩)] 0).2.1
    (by simp [cexState]) (.nanInLayer "W") hval
  have hstate := (admission_rejection cexState "c1" [("W", ⟨[2], [.nan, .fin 0]⟩)] 0).1
    (.nanInLayer "W") hrej
  exact ⟨hrej, hstate.1⟩

end FedGuard
